import Mathlib

/-!
Verification of the block-matching and pattern-detection engine of the
ABAP performance-snippet analyzer (`app/analyzer.py`).

Lines of source text are modelled as `List Char`; the per-line record,
the block spans, the raw findings and the final findings mirror the
dictionaries used by the Python code.  Regular-expression matching is
modelled by explicit character scanning restricted to the ASCII
whitespace and word-character classes that the patterns in the source
rely on.
-/

/-- ASCII whitespace, the characters matched by the `\s` class and
stripped by `lstrip`/`strip` on the inputs this engine handles. -/
def pyIsSpace (c : Char) : Bool :=
  c == ' ' || c == '\t' || c == '\n' || c == '\x0b' || c == '\x0c' || c == '\r'

/-- Word characters for the `\b` boundary assertion. -/
def isWordChar (c : Char) : Bool :=
  c.isAlpha || c.isDigit || c == '_'

/-- A line is blank after stripping, `not clean.strip()` in the source. -/
def isBlank (cs : List Char) : Bool :=
  (cs.dropWhile pyIsSpace).isEmpty

/-- Python `str.strip()`: drop leading and trailing whitespace. -/
def pyStrip (cs : List Char) : List Char :=
  ((cs.dropWhile pyIsSpace).reverse.dropWhile pyIsSpace).reverse

/-- Python `"\n".join`. -/
def joinNl : List (List Char) → List Char
  | [] => []
  | [l] => l
  | l :: ls => l ++ '\n' :: joinNl ls

/-- The `\b` assertion at a position directly after a word character:
holds when the remaining text is empty or starts with a non-word
character. -/
def wordBoundary : List Char → Bool
  | [] => true
  | c :: _ => !isWordChar c

/-- Case-insensitively consume the (lowercase) keyword `kw` from the
front of `cs`, returning the remainder on success. -/
def eatCI : List Char → List Char → Option (List Char)
  | [], rest => some rest
  | _ :: _, [] => none
  | k :: ks, c :: cs => if c.toLower == k then eatCI ks cs else none

/-- Case-insensitive `startswith`. -/
def startsWithCI (kw cs : List Char) : Bool :=
  (eatCI kw cs).isSome

/-- `re.match` of `^\s*KW\b` (case-insensitive): leading whitespace,
the keyword, then a word boundary. -/
def matchKwStart (kw : List Char) (cs : List Char) : Bool :=
  let t := cs.dropWhile pyIsSpace
  startsWithCI kw t && wordBoundary (t.drop kw.length)

/-- `re.match` of `^\s*SELECT(?!-OPTIONS)\b` (case-insensitive),
`RE_SELECT_SQL` in the source. -/
def matchesSelect (cs : List Char) : Bool :=
  let t := cs.dropWhile pyIsSpace
  startsWithCI "select".data t &&
    !startsWithCI "-options".data (t.drop 6) &&
    wordBoundary (t.drop 6)

/-- Consume one mandatory whitespace character and any further
whitespace, the `\s+` element of `RE_FOR_ALL_ENTRIES`. -/
def eatSp1 : List Char → Option (List Char)
  | [] => none
  | c :: rest => if pyIsSpace c then some (rest.dropWhile pyIsSpace) else none

/-- Match `FOR\s+ALL\s+ENTRIES\s+IN\b` at the current position. -/
def faeAt (cs : List Char) : Bool :=
  match ((((((eatCI "for".data cs).bind eatSp1).bind
      (eatCI "all".data)).bind eatSp1).bind
      (eatCI "entries".data)).bind eatSp1).bind (eatCI "in".data) with
  | some rest => wordBoundary rest
  | none => false

/-- `re.search` of `\bFOR\s+ALL\s+ENTRIES\s+IN\b`: try every position;
`bnd` records whether a word boundary holds before the current
position (the previous character, if any, is a non-word character). -/
def faeSearch (bnd : Bool) : List Char → Bool
  | [] => false
  | c :: rest => (bnd && faeAt (c :: rest)) || faeSearch (!isWordChar c) rest

/-- `RE_FOR_ALL_ENTRIES.search(clean)` as a Boolean. -/
def containsFAE (cs : List Char) : Bool :=
  faeSearch true cs

/-- The three block kinds, the strings `"LOOP"`, `"DO"`, `"WHILE"` in
the source. -/
inductive BKind where
  | LOOP
  | DO
  | WHILE
deriving DecidableEq, Repr

/-- `is_loop_start`: which block-opening keyword, if any, starts the
line. -/
def is_loop_start (cs : List Char) : Option BKind :=
  if matchKwStart "loop".data cs then some BKind.LOOP
  else if matchKwStart "do".data cs then some BKind.DO
  else if matchKwStart "while".data cs then some BKind.WHILE
  else none

/-- `is_loop_end`: which block-closing keyword, if any, starts the
line. -/
def is_loop_end (cs : List Char) : Option BKind :=
  if matchKwStart "endloop".data cs then some BKind.LOOP
  else if matchKwStart "enddo".data cs then some BKind.DO
  else if matchKwStart "endwhile".data cs then some BKind.WHILE
  else none

/-- `strip_abab_line_comments`: a line whose first non-blank character
is `*` is discarded entirely; otherwise everything from the first
double quote on is dropped. -/
def strip_abab_line_comments (line : List Char) : List Char :=
  if (line.dropWhile pyIsSpace).head? = some '*' then []
  else line.takeWhile (fun c => c != '\"')

/-- `normalize_newlines`: rewrite `\r\n` and bare `\r` to `\n`. -/
def normalize_newlines : List Char → List Char
  | [] => []
  | '\r' :: '\n' :: rest => '\n' :: normalize_newlines rest
  | '\r' :: rest => '\n' :: normalize_newlines rest
  | c :: rest => c :: normalize_newlines rest

/-- Python `str.split("\n")`: always at least one piece, a trailing
separator yields a trailing empty piece. -/
def splitOnNl : List Char → List (List Char)
  | [] => [[]]
  | '\n' :: rest => [] :: splitOnNl rest
  | c :: rest =>
    match splitOnNl rest with
    | [] => [[c]]
    | l :: ls => (c :: l) :: ls

/-- One logical line: 1-based number, original text, comment-stripped
text. -/
structure LogicalLine where
  no : Nat
  raw : List Char
  clean : List Char
deriving DecidableEq, Repr

/-- Default line used to model Python list indexing totally; real
accesses are always in range. -/
def dLine : LogicalLine := ⟨0, [], []⟩

/-- Number the split lines starting from `n`. -/
def numberLines : Nat → List (List Char) → List LogicalLine
  | _, [] => []
  | n, l :: ls => ⟨n, l, strip_abab_line_comments l⟩ :: numberLines (n + 1) ls

/-- `build_lines`: normalize newlines, split, number from 1 and strip
comments. -/
def build_lines (code : List Char) : List LogicalLine :=
  numberLines 1 (splitOnNl (normalize_newlines code))

/-- `find_matching_end`'s scanning loop: `d` is the depth counter, `i`
the index of the head of the remaining lines. -/
def fme_go (bt : BKind) : Int → Nat → List LogicalLine → Option Nat
  | _, _, [] => none
  | d, i, ld :: rest =>
    if isBlank ld.clean then fme_go bt d (i + 1) rest
    else if is_loop_start ld.clean = some bt then fme_go bt (d + 1) (i + 1) rest
    else if is_loop_end ld.clean = some bt then
      if d - 1 = 0 then some i else fme_go bt (d - 1) (i + 1) rest
    else fme_go bt d (i + 1) rest

/-- `find_matching_end`: from a block opening of kind `bt` at index
`start`, the index of its matching close, scanning with depth seeded
at 1. -/
def find_matching_end (lines : List LogicalLine) (start : Nat) (bt : BKind) : Option Nat :=
  fme_go bt 1 (start + 1) (lines.drop (start + 1))

/-- Pop the shared stack down to (and including) the nearest entry of
kind `et`, returning that entry's index and the remaining stack below
it; `none` when no entry of that kind is on the stack.  The head of
the list is the top of the stack. -/
def popTo (et : BKind) : List (BKind × Nat) → Option (Nat × List (BKind × Nat))
  | [] => none
  | (t, sidx) :: rest => if t == et then some (sidx, rest) else popTo et rest

/-- One resolved block span, the dictionaries built by
`collect_loop_blocks`. -/
structure Block where
  type : BKind
  start_idx : Nat
  end_idx : Nat
deriving DecidableEq, Repr

/-- The single left-to-right scan of `collect_loop_blocks`, emitting
spans in closing order. -/
def clb_go : Nat → List (BKind × Nat) → List LogicalLine → List Block
  | _, _, [] => []
  | idx, stack, ld :: rest =>
    if isBlank ld.clean then clb_go (idx + 1) stack rest
    else
      match is_loop_start ld.clean with
      | some st => clb_go (idx + 1) ((st, idx) :: stack) rest
      | none =>
        match is_loop_end ld.clean with
        | some et =>
          match popTo et stack with
          | some (sidx, stack') =>
            { type := et, start_idx := sidx, end_idx := idx } :: clb_go (idx + 1) stack' rest
          | none => clb_go (idx + 1) stack rest
        | none => clb_go (idx + 1) stack rest

/-- Stable insertion of a block into a list sorted by `start_idx`,
placing it after existing entries with a key less than or equal to
its own. -/
def insertBlock (b : Block) : List Block → List Block
  | [] => [b]
  | c :: cs =>
    if c.start_idx ≤ b.start_idx then c :: insertBlock b cs
    else b :: c :: cs

/-- Stable sort by `start_idx`, Python's `blocks.sort(key=...)`. -/
def sortBlocks (bs : List Block) : List Block :=
  bs.foldl (fun acc b => insertBlock b acc) []

/-- `collect_loop_blocks`: all resolved spans, sorted by start index. -/
def collect_loop_blocks (lines : List LogicalLine) : List Block :=
  sortBlocks (clb_go 0 [] lines)

/-- Fixed suggestion text of the nested-block rule. -/
def SUGGEST_NESTED_LOOPS : List Char :=
  "avoid nested loop for performance optimization.".data

/-- Fixed suggestion text of the retrieval-in-block rule. -/
def SUGGEST_SELECT_IN_LOOP : List Char :=
  "avoid select inside loop for performance optimization.".data

/-- Fixed suggestion text of the bulk-retrieval rule. -/
def SUGGEST_FOR_ALL_ENTRIES : List Char :=
  "avoid select with for all entries , with relevant select on Join condition.".data

/-- A rule's raw hit: suggestion, snippet, local 1-based line number. -/
structure RawFinding where
  suggestion : List Char
  snippet : List Char
  line : Nat
deriving DecidableEq, Repr

/-- Snippet built for a nested opening at index `idx` of kind `stype`:
the opening line through its matching close capped at 11 lines after
the opening, or through 5 lines after the opening when no close is
found, joined and stripped. -/
def nested_snippet (all : List LogicalLine) (idx : Nat) (stype : BKind) : List Char :=
  match find_matching_end all idx stype with
  | some e =>
    let clip := min e (idx + 11)
    pyStrip (joinNl (((all.drop idx).take (clip + 1 - idx)).map (·.raw)))
  | none =>
    let clip := min (all.length - 1) (idx + 5)
    pyStrip (joinNl (((all.drop idx).take (clip + 1 - idx)).map (·.raw)))

/-- `any(t in ("LOOP", "DO", "WHILE") for (t, _) in stack)`. -/
def kindOnStack (stack : List (BKind × Nat)) : Bool :=
  stack.any (fun p => p.1 == BKind.LOOP || p.1 == BKind.DO || p.1 == BKind.WHILE)

/-- The scanning loop of `find_nested_loops`: emit a finding for every
opening reached while the stack is non-empty, push every opening, and
on a closing pop to the nearest entry of matching kind. -/
def fnl_go (all : List LogicalLine) : Nat → List (BKind × Nat) → List LogicalLine → List RawFinding
  | _, _, [] => []
  | idx, stack, ld :: rest =>
    if isBlank ld.clean then fnl_go all (idx + 1) stack rest
    else
      match is_loop_start ld.clean with
      | some stype =>
        if kindOnStack stack then
          { suggestion := SUGGEST_NESTED_LOOPS
            snippet := nested_snippet all idx stype
            line := ld.no } :: fnl_go all (idx + 1) ((stype, idx) :: stack) rest
        else fnl_go all (idx + 1) ((stype, idx) :: stack) rest
      | none =>
        match is_loop_end ld.clean with
        | some etype =>
          match popTo etype stack with
          | some (_, stack') => fnl_go all (idx + 1) stack' rest
          | none => fnl_go all (idx + 1) stack rest
        | none => fnl_go all (idx + 1) stack rest

/-- `find_nested_loops`. -/
def find_nested_loops (lines : List LogicalLine) : List RawFinding :=
  fnl_go lines 0 [] lines

/-- The inner scan of `find_select_inside_loops` over one span:
`i` is the current index, `n` the number of indices still to visit,
`reported` the set of line numbers already reported in this span. -/
def fsil_scan (lines : List LogicalLine) (header : List Char) : Nat → Nat → List Nat → List RawFinding
  | _, 0, _ => []
  | i, n + 1, reported =>
    if matchesSelect (lines.getD i dLine).clean then
      let line_no := (lines.getD i dLine).no
      if reported.contains line_no then fsil_scan lines header (i + 1) n reported
      else
        { suggestion := SUGGEST_SELECT_IN_LOOP
          snippet := header ++ '\n' :: pyStrip ((lines.getD i dLine).raw)
          line := line_no } :: fsil_scan lines header (i + 1) n (line_no :: reported)
    else fsil_scan lines header (i + 1) n reported

/-- `find_select_inside_loops`: for each span, scan the lines strictly
after its opening through its closing line. -/
def find_select_inside_loops (lines : List LogicalLine) (blocks : List Block) : List RawFinding :=
  blocks.flatMap fun b =>
    fsil_scan lines (pyStrip ((lines.getD b.start_idx dLine).raw))
      (b.start_idx + 1) (b.end_idx - b.start_idx) []

/-- The scanning loop of `find_for_all_entries`. -/
def fae_go (all : List LogicalLine) : Nat → List LogicalLine → List RawFinding
  | _, [] => []
  | i, ld :: rest =>
    if containsFAE ld.clean then
      { suggestion := SUGGEST_FOR_ALL_ENTRIES
        snippet := pyStrip (joinNl (((all.drop (i - 1)).take
          (min (all.length - 1) (i + 1) + 1 - (i - 1))).map (·.raw)))
        line := ld.no } :: fae_go all (i + 1) rest
    else fae_go all (i + 1) rest

/-- `find_for_all_entries`. -/
def find_for_all_entries (lines : List LogicalLine) : List RawFinding :=
  fae_go lines 0 lines

/-- The input record consumed by `analyze_item`; optional fields model
the `dict.get` accesses of the source. -/
structure AnalysisItem where
  pgm_name : Option (List Char)
  inc_name : Option (List Char)
  type : Option (List Char)
  name : Option (List Char)
  start_line : Option Int
  code : Option (List Char)
deriving DecidableEq, Repr

/-- `schemas.py` declares `severity: str = "warning"` as the default on
the `Finding` model. -/
def finding_default_severity : List Char :=
  "warning".data

/-- One final-format finding. -/
structure Finding where
  prog_name : Option (List Char)
  incl_name : Option (List Char)
  types : Option (List Char)
  blockname : Option (List Char)
  starting_line : Int
  ending_line : Int
  issues_type : List Char
  severity : List Char := finding_default_severity
  message : List Char
  suggestion : List Char
  snippet : List Char
deriving DecidableEq, Repr

/-- The analysis result returned by `analyze_item`. -/
structure AnalysisResult where
  pgm_name : Option (List Char)
  inc_name : Option (List Char)
  type : Option (List Char)
  name : Option (List Char)
  code : Option (List Char)
  findings : List Finding
deriving DecidableEq, Repr

/-- `item.get("start_line") or 1`: a missing or zero offset defaults
to 1. -/
def base_start_line (item : AnalysisItem) : Int :=
  match item.start_line with
  | none => 1
  | some n => if n = 0 then 1 else n

/-- The finding-assembly loop body of `analyze_item`: translate the
local line number by the base offset and fill the fixed fields. -/
def assemble_finding (item : AnalysisItem) (base : Int) (f : RawFinding) : Finding :=
  let abs_line : Int := if 0 < f.line then base + (f.line : Int) - 1 else base
  { prog_name := item.pgm_name
    incl_name := item.inc_name
    types := item.type
    blockname := item.name
    starting_line := abs_line
    ending_line := abs_line
    issues_type := "PerformanceIssue".data
    severity := "error".data
    message := "Performance issue: ".data ++ f.suggestion
    suggestion := f.suggestion
    snippet := f.snippet }

/-- `analyze_item`: run the three rules in order and assemble the
final findings. -/
def analyze_item (item : AnalysisItem) : AnalysisResult :=
  let code := item.code.getD []
  let lines := build_lines code
  let raw :=
    find_nested_loops lines ++
      find_select_inside_loops lines (collect_loop_blocks lines) ++
      find_for_all_entries lines
  { pgm_name := item.pgm_name
    inc_name := item.inc_name
    type := item.type
    name := item.name
    code := some code
    findings := raw.map (assemble_finding item (base_start_line item)) }

/-- The findings of a result carrying a given rule's suggestion text. -/
def findingsWithSuggestion (res : AnalysisResult) (sugg : List Char) : List Finding :=
  res.findings.filter (fun f => f.suggestion == sugg)

/-- A qualifying inner opening recorded by the specification's reading
of the nested-block rule (§4.4): its line number, its index and its
kind. -/
structure NestedOpening where
  no : Nat
  idx : Nat
  kind : BKind
deriving DecidableEq, Repr

/-- Specification reading of the nested-block rule's scan: an opening
reached while at least one block is already open on the stack is a
qualifying inner opening; every opening is pushed, and a closing pops
the stack down to the nearest entry of matching kind. -/
def nOpen_go : Nat → List (BKind × Nat) → List LogicalLine → List NestedOpening
  | _, _, [] => []
  | idx, stack, ld :: rest =>
    if isBlank ld.clean then nOpen_go (idx + 1) stack rest
    else
      match is_loop_start ld.clean with
      | some stype =>
        if stack.isEmpty then nOpen_go (idx + 1) ((stype, idx) :: stack) rest
        else ⟨ld.no, idx, stype⟩ :: nOpen_go (idx + 1) ((stype, idx) :: stack) rest
      | none =>
        match is_loop_end ld.clean with
        | some etype =>
          match popTo etype stack with
          | some (_, stack') => nOpen_go (idx + 1) stack' rest
          | none => nOpen_go (idx + 1) stack rest
        | none => nOpen_go (idx + 1) stack rest

/-- The qualifying inner openings of a line sequence, per the
specification. -/
def nestedOpeningsSpec (lines : List LogicalLine) : List NestedOpening :=
  nOpen_go 0 [] lines

/-- Specification reading of the retrieval-in-block rule for one span
(§4.5): one finding per line strictly after the opening through the
closing line whose comment-stripped text matches the SELECT pattern,
with a two-line snippet of the trimmed opening and the trimmed
matching line. -/
def selectSpanFindingsSpec (lines : List LogicalLine) (b : Block) : List RawFinding :=
  ((List.range' (b.start_idx + 1) (b.end_idx - b.start_idx)).filter
      (fun j => matchesSelect (lines.getD j dLine).clean)).map
    (fun j =>
      { suggestion := SUGGEST_SELECT_IN_LOOP
        snippet := pyStrip ((lines.getD b.start_idx dLine).raw) ++ '\n' ::
          pyStrip ((lines.getD j dLine).raw)
        line := (lines.getD j dLine).no })

/-- Specification reading of the bulk-retrieval rule (§4.6): one
finding per line containing the FOR ALL ENTRIES phrase, with a
snippet of the line before, the line itself and the line after,
clamped at the boundaries, taken from the raw text. -/
def faeFindingsSpec (lines : List LogicalLine) : List RawFinding :=
  ((List.range lines.length).filter
      (fun j => containsFAE (lines.getD j dLine).clean)).map
    (fun j =>
      { suggestion := SUGGEST_FOR_ALL_ENTRIES
        snippet := pyStrip (joinNl (((lines.drop (j - 1)).take
          (min (lines.length - 1) (j + 1) + 1 - (j - 1))).map (·.raw)))
        line := (lines.getD j dLine).no })

/-- Concrete inputs used by the testable properties of the
specification. -/
def nestedExampleItem : AnalysisItem :=
  { pgm_name := none, inc_name := none, type := none, name := none
    start_line := some 1
    code := some "LOOP AT t.\n  LOOP AT t2.\n  ENDLOOP.\nENDLOOP.".data }

/-- A triply-nested structure: three openings of different kinds. -/
def tripleNestedCode : List Char :=
  "LOOP AT a.\nDO.\nWHILE x.\nENDWHILE.\nENDDO.\nENDLOOP.".data

/-- A block with one retrieval statement inside it. -/
def selectExampleItem : AnalysisItem :=
  { pgm_name := none, inc_name := none, type := none, name := none
    start_line := none
    code := some "LOOP AT t.\n  SELECT * FROM x.\nENDLOOP.".data }

/-- An unterminated block followed by a retrieval statement. -/
def unterminatedCode : List Char :=
  "LOOP AT t.\n  SELECT * FROM x.".data

/-- A single line containing the FOR ALL ENTRIES phrase. -/
def faeExampleItem : AnalysisItem :=
  { pgm_name := none, inc_name := none, type := none, name := none
    start_line := none
    code := some "SELECT * FROM x FOR ALL ENTRIES IN t.".data }

/-- Nested spans of different kinds with retrieval statements inside
both the inner and the outer span. -/
def overlapExampleItem : AnalysisItem :=
  { pgm_name := none, inc_name := none, type := none, name := none
    start_line := none
    code := some "LOOP AT a.\nDO.\nSELECT X.\nENDDO.\nSELECT Y.\nENDLOOP.".data }

/-- A blank logical line. -/
def blankLine : LogicalLine := ⟨7, "   ".data, "   ".data⟩

/-- A line opening a LOOP block. -/
def loopLine : LogicalLine := ⟨8, "LOOP AT t.".data, "LOOP AT t.".data⟩

/-- A line closing a LOOP block. -/
def endloopLine : LogicalLine := ⟨9, "ENDLOOP.".data, "ENDLOOP.".data⟩

/-- A line closing a DO block. -/
def enddoLine : LogicalLine := ⟨10, "ENDDO.".data, "ENDDO.".data⟩

/-- A whole-line comment. -/
def starCommentLine : List Char := "  * SELECT inside a comment".data

/-- A line with an inline comment marker. -/
def inlineCommentLine : List Char := "ab\"cd".data

/-- A plain line with no comment marker. -/
def plainLine : List Char := "LOOP AT t.".data

/-- A list of naturals is in nondecreasing order. -/
def Nondecr : List Nat → Bool
  | [] => true
  | [_] => true
  | a :: b :: r => decide (a ≤ b) && Nondecr (b :: r)

/-- A list of integers is in nondecreasing order. -/
def NondecrI : List Int → Bool
  | [] => true
  | [_] => true
  | a :: b :: r => decide (a ≤ b) && NondecrI (b :: r)

/-! ## Support lemmas -/

theorem drop_succ_of_drop_cons {α : Type} {L : List α} {i : Nat} {a : α} {rest : List α}
    (h : L.drop i = a :: rest) : L.drop (i + 1) = rest := by
  have h1 := List.drop_drop 1 i L
  rw [h] at h1
  simpa [Nat.add_comm] using h1.symm

theorem getD_of_drop_cons {α : Type} {L : List α} {i : Nat} {a : α} {rest : List α} (d : α)
    (h : L.drop i = a :: rest) : L.getD i d = a := by
  induction i generalizing L with
  | zero => simp only [List.drop_zero] at h; simp [h]
  | succ i ih =>
    cases L with
    | nil => simp at h
    | cons b L' =>
      simp only [List.drop_succ_cons] at h
      simpa using ih h

theorem lt_length_of_drop_cons {α : Type} {L : List α} {i : Nat} {a : α} {rest : List α}
    (h : L.drop i = a :: rest) : i < L.length := by
  by_contra hh
  push_neg at hh
  rw [List.drop_eq_nil_of_le hh] at h
  simp at h

theorem numberLines_length (ls : List (List Char)) : ∀ n, (numberLines n ls).length = ls.length := by
  induction ls with
  | nil => intro n; rfl
  | cons l ls ih => intro n; simp [numberLines, ih]

theorem numberLines_no (d : LogicalLine) (ls : List (List Char)) :
    ∀ n i, i < ls.length → ((numberLines n ls).getD i d).no = n + i := by
  induction ls with
  | nil => intro n i h; simp at h
  | cons l ls ih =>
    intro n i h
    cases i with
    | zero => simp [numberLines]
    | succ i =>
      simp only [numberLines, List.getD_cons_succ]
      rw [ih (n + 1) i (by simpa using h)]
      omega

theorem build_lines_no (code : List Char) (i : Nat) (h : i < (build_lines code).length) :
    ((build_lines code).getD i dLine).no = i + 1 := by
  unfold build_lines at h ⊢
  rw [numberLines_length] at h
  rw [numberLines_no dLine _ 1 i h]
  omega

/-! ## C1: identifying fields and code text preservation -/

/-- C1 counterexample: with the code text missing from the input,
`analyze_item` returns the empty text rather than the input's
(missing) value, so the result's code does not equal the input's code
unchanged. -/
theorem C1_counterexample :
    (analyze_item ⟨none, none, none, none, none, none⟩).code ≠
      (⟨none, none, none, none, none, none⟩ : AnalysisItem).code := by
  decide

/-- C1 (amended): for every input, `analyze_item` terminates (it is a
total function) and returns a result whose identifying fields equal
the input's values unchanged; the code text is returned unchanged
whenever present, and a missing code text is returned as the empty
text. -/
theorem C1_analyze_preserves_fields (item : AnalysisItem) :
    (analyze_item item).pgm_name = item.pgm_name ∧
    (analyze_item item).inc_name = item.inc_name ∧
    (analyze_item item).type = item.type ∧
    (analyze_item item).name = item.name ∧
    (analyze_item item).code = some (item.code.getD []) :=
  ⟨rfl, rfl, rfl, rfl, rfl⟩

/-! ## C2: absolute line computation -/

/-- C2: the assembler maps a raw finding with a positive local line to
`startingLine = endingLine = base + localLine - 1` and one with local
line 0 to `base`; consequently every finding of every analysis has
`startingLine = endingLine` and `startingLine ≥` the effective start
offset. -/
theorem C2_absolute_lines :
    (∀ (item : AnalysisItem) (base : Int) (f : RawFinding),
      (assemble_finding item base f).starting_line =
        (if 0 < f.line then base + (f.line : Int) - 1 else base) ∧
      (assemble_finding item base f).ending_line =
        (assemble_finding item base f).starting_line) ∧
    (∀ item : AnalysisItem,
      (analyze_item item).findings.all
        (fun fd => fd.starting_line == fd.ending_line &&
          decide (base_start_line item ≤ fd.starting_line)) = true) := by
  constructor
  · intro item base f
    exact ⟨rfl, rfl⟩
  · intro item
    rw [List.all_eq_true]
    intro fd hfd
    have hmem : fd ∈ (find_nested_loops (build_lines (item.code.getD [])) ++
        find_select_inside_loops (build_lines (item.code.getD []))
          (collect_loop_blocks (build_lines (item.code.getD []))) ++
        find_for_all_entries (build_lines (item.code.getD []))).map
          (assemble_finding item (base_start_line item)) := hfd
    rcases List.mem_map.1 hmem with ⟨rf, _, rfl⟩
    show ((assemble_finding item (base_start_line item) rf).starting_line ==
        (assemble_finding item (base_start_line item) rf).ending_line &&
      decide (base_start_line item ≤
        (assemble_finding item (base_start_line item) rf).starting_line)) = true
    simp only [assemble_finding, beq_self_eq_true, Bool.true_and, decide_eq_true_eq]
    by_cases h0 : 0 < rf.line
    · simp only [if_pos h0]
      omega
    · simp only [if_neg h0]
      omega

/-! ## C10: severity constant -/

/-- C10: the output schema declares `"warning"` as the default
severity of a finding, yet every finding emitted by `analyze_item`
carries severity `"error"` — the assembler unconditionally overrides
the default. -/
theorem C10_severity_always_error :
    finding_default_severity = "warning".data ∧
    finding_default_severity ≠ "error".data ∧
    ∀ item : AnalysisItem,
      (analyze_item item).findings.all (fun f => f.severity == "error".data) = true := by
  refine ⟨rfl, by decide, ?_⟩
  intro item
  rw [List.all_eq_true]
  intro fd hfd
  have hmem : fd ∈ (find_nested_loops (build_lines (item.code.getD [])) ++
      find_select_inside_loops (build_lines (item.code.getD []))
        (collect_loop_blocks (build_lines (item.code.getD []))) ++
      find_for_all_entries (build_lines (item.code.getD []))).map
        (assemble_finding item (base_start_line item)) := hfd
  rcases List.mem_map.1 hmem with ⟨rf, _, rfl⟩
  rfl

/-! ## C9: comment stripper -/

theorem dropWhile_quote_cons :
    ∀ l : List Char, '\"' ∈ l →
      ∃ s, l.dropWhile (fun c => c != '\"') = '\"' :: s := by
  intro l h
  induction l with
  | nil => simp at h
  | cons c cs ih =>
    by_cases hc : c = '\"'
    · subst hc
      exact ⟨cs, by simp [List.dropWhile_cons]⟩
    · have hmem : '\"' ∈ cs := by
        rcases List.mem_cons.1 h with h1 | h1
        · exact absurd h1.symm hc
        · exact h1
      obtain ⟨s, hs⟩ := ih hmem
      refine ⟨s, ?_⟩
      rw [List.dropWhile_cons, if_pos (by simp [hc]), hs]

/-- C9: a line whose text after leading whitespace begins with the
line-comment marker `*` strips to the empty string, on which none of
the rule patterns can match; otherwise, when the inline marker `"`
occurs, the stripper returns exactly the text preceding its first
occurrence; otherwise the line is returned unchanged. -/
theorem C9_comment_stripper (l : List Char) :
    ((l.dropWhile pyIsSpace).head? = some '*' →
      strip_abab_line_comments l = [] ∧
      is_loop_start (strip_abab_line_comments l) = none ∧
      is_loop_end (strip_abab_line_comments l) = none ∧
      matchesSelect (strip_abab_line_comments l) = false ∧
      containsFAE (strip_abab_line_comments l) = false) ∧
    ((l.dropWhile pyIsSpace).head? ≠ some '*' → '\"' ∈ l →
      (∃ s, l = strip_abab_line_comments l ++ '\"' :: s) ∧
        '\"' ∉ strip_abab_line_comments l) ∧
    ((l.dropWhile pyIsSpace).head? ≠ some '*' → '\"' ∉ l →
      strip_abab_line_comments l = l) := by
  refine ⟨?_, ?_, ?_⟩
  · intro h
    have hs : strip_abab_line_comments l = [] := by
      unfold strip_abab_line_comments
      rw [if_pos h]
    rw [hs]
    exact ⟨rfl, by decide, by decide, by decide, by decide⟩
  · intro h hq
    have hs : strip_abab_line_comments l = l.takeWhile (fun c => c != '\"') := by
      unfold strip_abab_line_comments
      rw [if_neg h]
    rw [hs]
    constructor
    · obtain ⟨s, hcons⟩ := dropWhile_quote_cons l hq
      refine ⟨s, ?_⟩
      conv_lhs => rw [← List.takeWhile_append_dropWhile (fun c => c != '\"') l]
      rw [hcons]
    · intro hmem
      have := List.mem_takeWhile_imp hmem
      simp at this
  · intro h hq
    have hs : strip_abab_line_comments l = l.takeWhile (fun c => c != '\"') := by
      unfold strip_abab_line_comments
      rw [if_neg h]
    rw [hs, List.takeWhile_eq_self_iff]
    intro x hx
    simp only [bne_iff_ne, ne_eq]
    intro hxq
    exact hq (hxq ▸ hx)

/-- C9 witness: the three cases of the stripper at concrete lines, and
the no-pattern-match consequence for a whole-line comment. -/
theorem C9_witness :
    (strip_abab_line_comments starCommentLine = [] ∧
      is_loop_start (strip_abab_line_comments starCommentLine) = none ∧
      is_loop_end (strip_abab_line_comments starCommentLine) = none ∧
      matchesSelect (strip_abab_line_comments starCommentLine) = false ∧
      containsFAE (strip_abab_line_comments starCommentLine) = false) ∧
    ((∃ s, inlineCommentLine = strip_abab_line_comments inlineCommentLine ++ '\"' :: s) ∧
      '\"' ∉ strip_abab_line_comments inlineCommentLine) ∧
    strip_abab_line_comments plainLine = plainLine :=
  ⟨(C9_comment_stripper starCommentLine).1 (by decide),
   (C9_comment_stripper inlineCommentLine).2.1 (by decide) (by decide),
   (C9_comment_stripper plainLine).2.2 (by decide) (by decide)⟩

/-! ## C8: find-matching-end -/

/-- C8: `find_matching_end` scans forward from the opening with a
depth counter seeded at 1; a subsequent same-kind opening increments
the depth, a same-kind closing decrements it and the first decrement
to zero yields that line's index; blank lines and lines that are
neither a same-kind opening nor a same-kind closing (in particular
openings and closings of other kinds) leave the depth unchanged, and
an exhausted line sequence yields no match. -/
theorem C8_find_matching_end (bt : BKind) (d : Int) (i : Nat) (ld : LogicalLine)
    (rest : List LogicalLine) (lines : List LogicalLine) (s : Nat) :
    (find_matching_end lines s bt = fme_go bt 1 (s + 1) (lines.drop (s + 1))) ∧
    (fme_go bt d i [] = none) ∧
    (isBlank ld.clean = true →
      fme_go bt d i (ld :: rest) = fme_go bt d (i + 1) rest) ∧
    (isBlank ld.clean = false → is_loop_start ld.clean = some bt →
      fme_go bt d i (ld :: rest) = fme_go bt (d + 1) (i + 1) rest) ∧
    (isBlank ld.clean = false → is_loop_start ld.clean ≠ some bt →
      is_loop_end ld.clean = some bt → d = 1 →
      fme_go bt d i (ld :: rest) = some i) ∧
    (isBlank ld.clean = false → is_loop_start ld.clean ≠ some bt →
      is_loop_end ld.clean = some bt → d ≠ 1 →
      fme_go bt d i (ld :: rest) = fme_go bt (d - 1) (i + 1) rest) ∧
    (isBlank ld.clean = false → is_loop_start ld.clean ≠ some bt →
      is_loop_end ld.clean ≠ some bt →
      fme_go bt d i (ld :: rest) = fme_go bt d (i + 1) rest) := by
  refine ⟨rfl, rfl, ?_, ?_, ?_, ?_, ?_⟩
  · intro hb
    simp [fme_go, hb]
  · intro hb hs
    simp [fme_go, hb, hs]
  · intro hb hs he hd
    subst hd
    simp [fme_go, hb, hs, he]
  · intro hb hs he hd
    have hd1 : ¬(d - 1 = 0) := by omega
    simp [fme_go, hb, hs, he, hd1]
  · intro hb hs he
    simp [fme_go, hb, hs, he]

/-- C8 witness: the step equations at concrete lines of each shape,
and the seeding of the depth counter from a concrete opening. -/
theorem C8_witness :
    (find_matching_end [loopLine, endloopLine] 0 BKind.LOOP =
      fme_go BKind.LOOP 1 1 ([loopLine, endloopLine].drop 1)) ∧
    (fme_go BKind.LOOP 1 0 [] = none) ∧
    (fme_go BKind.LOOP 2 5 [blankLine] = fme_go BKind.LOOP 2 6 []) ∧
    (fme_go BKind.LOOP 2 5 [loopLine] = fme_go BKind.LOOP 3 6 []) ∧
    (fme_go BKind.LOOP 1 5 [endloopLine] = some 5) ∧
    (fme_go BKind.LOOP 2 5 [endloopLine] = fme_go BKind.LOOP 1 6 []) ∧
    (fme_go BKind.LOOP 2 5 [enddoLine] = fme_go BKind.LOOP 2 6 []) :=
  ⟨(C8_find_matching_end BKind.LOOP 1 0 dLine [] [loopLine, endloopLine] 0).1,
   (C8_find_matching_end BKind.LOOP 1 0 dLine [] [] 0).2.1,
   (C8_find_matching_end BKind.LOOP 2 5 blankLine [] [] 0).2.2.1 (by decide),
   (C8_find_matching_end BKind.LOOP 2 5 loopLine [] [] 0).2.2.2.1 (by decide) (by decide),
   (C8_find_matching_end BKind.LOOP 1 5 endloopLine [] [] 0).2.2.2.2.1
     (by decide) (by decide) (by decide) rfl,
   (C8_find_matching_end BKind.LOOP 2 5 endloopLine [] [] 0).2.2.2.2.2.1
     (by decide) (by decide) (by decide) (by decide),
   (C8_find_matching_end BKind.LOOP 2 5 enddoLine [] [] 0).2.2.2.2.2.2
     (by decide) (by decide) (by decide)⟩

/-! ## Nested-block rule: relation to the specification's reading -/

theorem kindOnStack_eq (stack : List (BKind × Nat)) :
    kindOnStack stack = !stack.isEmpty := by
  cases stack with
  | nil => rfl
  | cons p rest =>
    rcases p with ⟨t, i⟩
    cases t <;> simp [kindOnStack]

theorem fnl_go_eq (all : List LogicalLine) :
    ∀ (rest : List LogicalLine) (idx : Nat) (stack : List (BKind × Nat)),
    fnl_go all idx stack rest =
      (nOpen_go idx stack rest).map
        (fun p => { suggestion := SUGGEST_NESTED_LOOPS
                    snippet := nested_snippet all p.idx p.kind
                    line := p.no }) := by
  intro rest
  induction rest with
  | nil => intro idx stack; rfl
  | cons ld rest ih =>
    intro idx stack
    simp only [fnl_go, nOpen_go, kindOnStack_eq]
    by_cases hb : isBlank ld.clean
    · simp [hb, ih]
    · simp only [hb, Bool.false_eq_true, if_false]
      cases hs : is_loop_start ld.clean with
      | some stype =>
        by_cases hse : stack.isEmpty
        · simp [hse, ih]
        · simp [hse, ih]
      | none =>
        cases he : is_loop_end ld.clean with
        | some etype =>
          cases hp : popTo etype stack with
          | some pr =>
            rcases pr with ⟨sidx, stack'⟩
            simp [hp, ih]
          | none => simp [hp, ih]
        | none => simp [ih]

/-! ## C3: nested-block rule findings -/

/-- C3: the nested-block rule emits exactly one finding per opening
encountered while at least one block is already open, at that
opening's line number; the triply-nested example yields exactly two
findings (lines 2 and 3), and the specification's nested example with
offset 1 yields exactly one nested-block finding at absolute line 2. -/
theorem C3_nested_rule :
    (∀ lines : List LogicalLine,
      (find_nested_loops lines).map (·.line) = (nestedOpeningsSpec lines).map (·.no)) ∧
    (find_nested_loops (build_lines tripleNestedCode)).map (·.line) = [2, 3] ∧
    (findingsWithSuggestion (analyze_item nestedExampleItem) SUGGEST_NESTED_LOOPS).map
      (·.starting_line) = [2] := by
  refine ⟨?_, by decide, by decide⟩
  intro lines
  unfold find_nested_loops nestedOpeningsSpec
  rw [fnl_go_eq]
  simp [List.map_map]

/-! ## C6: nested-block snippets -/

/-- C6: every nested-block finding's snippet runs from the inner
opening through its matching close capped at 11 lines after the
opening, or, when no matching close exists, through 5 lines after the
opening clamped at the end of the input (raw lines, joined and
trimmed). -/
theorem C6_nested_snippets (lines : List LogicalLine) :
    (find_nested_loops lines).map (·.snippet) =
      (nestedOpeningsSpec lines).map (fun p =>
        match find_matching_end lines p.idx p.kind with
        | some e =>
          pyStrip (joinNl (((lines.drop p.idx).take
            (min e (p.idx + 11) + 1 - p.idx)).map (·.raw)))
        | none =>
          pyStrip (joinNl (((lines.drop p.idx).take
            (min (lines.length - 1) (p.idx + 5) + 1 - p.idx)).map (·.raw)))) := by
  unfold find_nested_loops nestedOpeningsSpec
  rw [fnl_go_eq]
  simp only [List.map_map]
  apply List.map_congr_left
  intro p _
  rfl

/-! ## C4: retrieval-in-block rule -/

theorem select_lt_length (lines : List LogicalLine) (j : Nat)
    (h : matchesSelect (lines.getD j dLine).clean = true) : j < lines.length := by
  by_contra hh
  push_neg at hh
  rw [List.getD_eq_default _ _ hh] at h
  exact absurd h (by decide)

theorem fsil_scan_eq (lines : List LogicalLine) (header : List Char)
    (hno : ∀ j, j < lines.length → (lines.getD j dLine).no = j + 1) :
    ∀ (n i : Nat) (reported : List Nat), (∀ m ∈ reported, m ≤ i) →
    fsil_scan lines header i n reported =
      ((List.range' i n).filter (fun j => matchesSelect (lines.getD j dLine).clean)).map
        (fun j =>
          { suggestion := SUGGEST_SELECT_IN_LOOP
            snippet := header ++ '\n' :: pyStrip ((lines.getD j dLine).raw)
            line := (lines.getD j dLine).no }) := by
  intro n
  induction n with
  | zero => intro i reported _; rfl
  | succ n ih =>
    intro i reported hrep
    rw [List.range'_succ]
    by_cases hm : matchesSelect (lines.getD i dLine).clean = true
    · have hi : i < lines.length := select_lt_length lines i hm
      have hno_i := hno i hi
      have hnc : reported.contains ((lines.getD i dLine).no) = false := by
        rw [hno_i]
        by_contra hcon
        rw [Bool.not_eq_false] at hcon
        simp only [List.contains_eq_any_beq, List.any_eq_true, beq_iff_eq] at hcon
        obtain ⟨x, hx, hxx⟩ := hcon
        have := hrep x hx
        omega
      rw [List.filter_cons_of_pos (by simpa using hm), List.map_cons]
      simp only [fsil_scan, hm, if_true, hnc, Bool.false_eq_true, if_false]
      refine congrArg₂ _ rfl ?_
      rw [ih (i + 1) ((lines.getD i dLine).no :: reported) ?_]
      intro m hmem
      rcases List.mem_cons.1 hmem with h1 | h1
      · omega
      · have := hrep m h1
        omega
    · have hm' : matchesSelect (lines.getD i dLine).clean = false := by
        simpa using hm
      rw [List.filter_cons_of_neg (by simpa using hm')]
      simp only [fsil_scan, hm', Bool.false_eq_true, if_false]
      rw [ih (i + 1) reported ?_]
      intro m hmem
      have := hrep m hmem
      omega

theorem find_select_eq (lines : List LogicalLine)
    (hno : ∀ j, j < lines.length → (lines.getD j dLine).no = j + 1)
    (blocks : List Block) :
    find_select_inside_loops lines blocks = blocks.flatMap (selectSpanFindingsSpec lines) := by
  unfold find_select_inside_loops selectSpanFindingsSpec
  induction blocks with
  | nil => rfl
  | cons b bs ih =>
    rw [List.flatMap_cons, List.flatMap_cons, ih]
    refine congrArg₂ _ ?_ rfl
    exact fsil_scan_eq lines _ hno (b.end_idx - b.start_idx) (b.start_idx + 1) [] (by simp)

/-- C4: over the line sequence built from any code text, the
retrieval-in-block rule emits, per resolved span, exactly one finding
for each line strictly after the span's opening through its closing
line whose comment-stripped text matches the SELECT-but-not-
SELECT-OPTIONS pattern, at that line with the two-line trimmed
snippet; the specification's example yields exactly one finding at
absolute line 2 with snippet `"LOOP AT t.\nSELECT * FROM x."`, and an
unterminated opening contributes no span and no findings. -/
theorem C4_select_in_block :
    (∀ code : List Char,
      find_select_inside_loops (build_lines code) (collect_loop_blocks (build_lines code)) =
        (collect_loop_blocks (build_lines code)).flatMap
          (selectSpanFindingsSpec (build_lines code))) ∧
    (findingsWithSuggestion (analyze_item selectExampleItem) SUGGEST_SELECT_IN_LOOP).map
      (fun f => (f.starting_line, f.snippet)) =
        [(2, "LOOP AT t.\nSELECT * FROM x.".data)] ∧
    collect_loop_blocks (build_lines unterminatedCode) = [] ∧
    find_select_inside_loops (build_lines unterminatedCode)
      (collect_loop_blocks (build_lines unterminatedCode)) = [] := by
  refine ⟨?_, by decide, by decide, by decide⟩
  intro code
  exact find_select_eq (build_lines code) (build_lines_no code) _

/-! ## C5: bulk-retrieval rule -/

theorem fae_go_eq (all : List LogicalLine) :
    ∀ (rest : List LogicalLine) (i : Nat), all.drop i = rest →
    fae_go all i rest =
      ((List.range' i rest.length).filter
          (fun j => containsFAE (all.getD j dLine).clean)).map
        (fun j =>
          { suggestion := SUGGEST_FOR_ALL_ENTRIES
            snippet := pyStrip (joinNl (((all.drop (j - 1)).take
              (min (all.length - 1) (j + 1) + 1 - (j - 1))).map (·.raw)))
            line := (all.getD j dLine).no }) := by
  intro rest
  induction rest with
  | nil => intro i _; rfl
  | cons ld rest ih =>
    intro i h
    have hld : all.getD i dLine = ld := getD_of_drop_cons dLine h
    have hdrop : all.drop (i + 1) = rest := drop_succ_of_drop_cons h
    rw [List.length_cons, List.range'_succ]
    by_cases hc : containsFAE ld.clean = true
    · have hc' : containsFAE (all.getD i dLine).clean = true := by rw [hld]; exact hc
      rw [List.filter_cons_of_pos (by simpa using hc'), List.map_cons]
      simp only [fae_go, hc, if_true]
      rw [hld, ih (i + 1) hdrop]
    · have hc' : containsFAE (all.getD i dLine).clean = false := by
        rw [hld]; simpa using hc
      rw [List.filter_cons_of_neg (by simpa using hc')]
      simp only [fae_go, hc, Bool.false_eq_true, if_false]
      exact ih (i + 1) hdrop

/-- C5: the bulk-retrieval rule emits exactly one finding per line
whose comment-stripped text contains the FOR ALL ENTRIES phrase, at
that line, with a snippet of up to three raw lines clamped at the
text's boundaries; on the specification's one-line example it yields
exactly one finding at line 1 whose snippet is that single line. -/
theorem C5_bulk_retrieval :
    (∀ lines : List LogicalLine, find_for_all_entries lines = faeFindingsSpec lines) ∧
    (findingsWithSuggestion (analyze_item faeExampleItem) SUGGEST_FOR_ALL_ENTRIES).map
      (fun f => (f.starting_line, f.snippet)) =
        [(1, "SELECT * FROM x FOR ALL ENTRIES IN t.".data)] ∧
    (analyze_item faeExampleItem).findings.length = 1 := by
  refine ⟨?_, by decide, by decide⟩
  intro lines
  unfold find_for_all_entries faeFindingsSpec
  rw [fae_go_eq lines lines 0 (by simp), List.range_eq_range']

/-! ## C7: ordering of findings -/

theorem nOpen_ge :
    ∀ (rest : List LogicalLine) (idx : Nat) (stack : List (BKind × Nat)) (p : NestedOpening),
      p ∈ nOpen_go idx stack rest → idx ≤ p.idx := by
  intro rest
  induction rest with
  | nil =>
    intro idx stack p hp
    simp [nOpen_go] at hp
  | cons ld rest ih =>
    intro idx stack p hp
    simp only [nOpen_go] at hp
    by_cases hb : isBlank ld.clean
    · rw [if_pos hb] at hp
      have := ih (idx + 1) stack p hp
      omega
    · rw [if_neg hb] at hp
      cases hs : is_loop_start ld.clean with
      | some stype =>
        simp only [hs] at hp
        by_cases hse : stack.isEmpty
        · rw [if_pos hse] at hp
          have := ih (idx + 1) _ p hp
          omega
        · rw [if_neg hse] at hp
          rcases List.mem_cons.1 hp with h1 | h1
          · rw [h1]
          · have := ih (idx + 1) _ p h1
            omega
      | none =>
        simp only [hs] at hp
        cases he : is_loop_end ld.clean with
        | some et =>
          simp only [he] at hp
          cases hpop : popTo et stack with
          | some pr =>
            rcases pr with ⟨sidx, stack'⟩
            simp only [hpop] at hp
            have := ih (idx + 1) stack' p hp
            omega
          | none =>
            simp only [hpop] at hp
            have := ih (idx + 1) stack p hp
            omega
        | none =>
          simp only [he] at hp
          have := ih (idx + 1) stack p hp
          omega

theorem nOpen_chain :
    ∀ (rest : List LogicalLine) (idx : Nat) (stack : List (BKind × Nat)),
      List.Chain' (fun a b : NestedOpening => a.idx < b.idx) (nOpen_go idx stack rest) := by
  intro rest
  induction rest with
  | nil =>
    intro idx stack
    simp [nOpen_go]
  | cons ld rest ih =>
    intro idx stack
    simp only [nOpen_go]
    by_cases hb : isBlank ld.clean
    · rw [if_pos hb]; exact ih (idx + 1) stack
    · rw [if_neg hb]
      cases hs : is_loop_start ld.clean with
      | some stype =>
        dsimp only
        by_cases hse : stack.isEmpty
        · rw [if_pos hse]; exact ih (idx + 1) _
        · rw [if_neg hse]
          rw [List.chain'_cons']
          refine ⟨?_, ih (idx + 1) _⟩
          intro y hy
          have hmem := List.mem_of_mem_head? hy
          have := nOpen_ge rest (idx + 1) _ y hmem
          show idx < y.idx
          omega
      | none =>
        dsimp only
        cases he : is_loop_end ld.clean with
        | some et =>
          dsimp only
          cases hpop : popTo et stack with
          | some pr =>
            rcases pr with ⟨sidx, stack'⟩
            dsimp only
            exact ih (idx + 1) stack'
          | none =>
            dsimp only
            exact ih (idx + 1) stack
        | none =>
          dsimp only
          exact ih (idx + 1) stack

theorem nOpen_no (L : List LogicalLine)
    (hno : ∀ j, j < L.length → (L.getD j dLine).no = j + 1) :
    ∀ (rest : List LogicalLine) (idx : Nat) (stack : List (BKind × Nat)),
      L.drop idx = rest → ∀ p ∈ nOpen_go idx stack rest, p.no = p.idx + 1 := by
  intro rest
  induction rest with
  | nil =>
    intro idx stack _ p hp
    simp [nOpen_go] at hp
  | cons ld rest ih =>
    intro idx stack hdrop p hp
    have hld : L.getD idx dLine = ld := getD_of_drop_cons dLine hdrop
    have hlt : idx < L.length := lt_length_of_drop_cons hdrop
    have hdrop' : L.drop (idx + 1) = rest := drop_succ_of_drop_cons hdrop
    simp only [nOpen_go] at hp
    by_cases hb : isBlank ld.clean
    · rw [if_pos hb] at hp
      exact ih (idx + 1) stack hdrop' p hp
    · rw [if_neg hb] at hp
      cases hs : is_loop_start ld.clean with
      | some stype =>
        simp only [hs] at hp
        by_cases hse : stack.isEmpty
        · rw [if_pos hse] at hp
          exact ih (idx + 1) _ hdrop' p hp
        · rw [if_neg hse] at hp
          rcases List.mem_cons.1 hp with h1 | h1
          · rw [h1]
            show ld.no = idx + 1
            rw [← hld]
            exact hno idx hlt
          · exact ih (idx + 1) _ hdrop' p h1
      | none =>
        simp only [hs] at hp
        cases he : is_loop_end ld.clean with
        | some et =>
          simp only [he] at hp
          cases hpop : popTo et stack with
          | some pr =>
            rcases pr with ⟨sidx, stack'⟩
            simp only [hpop] at hp
            exact ih (idx + 1) stack' hdrop' p hp
          | none =>
            simp only [hpop] at hp
            exact ih (idx + 1) stack hdrop' p hp
        | none =>
          simp only [he] at hp
          exact ih (idx + 1) stack hdrop' p hp

theorem nondecr_map_no :
    ∀ l : List NestedOpening,
      List.Chain' (fun a b : NestedOpening => a.idx < b.idx) l →
      (∀ p ∈ l, p.no = p.idx + 1) → Nondecr (l.map (·.no)) = true := by
  intro l
  induction l with
  | nil => intro _ _; rfl
  | cons a l ih =>
    intro hc hno
    cases l with
    | nil => rfl
    | cons b l' =>
      rcases List.chain'_cons.1 hc with ⟨hab, hc'⟩
      have ha := hno a (by simp)
      have hb := hno b (by simp)
      have h1 : a.no ≤ b.no := by omega
      have h2 : Nondecr (b.no :: l'.map (·.no)) = true := by
        simpa using ih hc' (fun p hp => hno p (by simp [hp]))
      simp only [List.map_cons] at h2 ⊢
      simp [Nondecr, h1, h2]

theorem nondecr_map_filtered (g : Nat → Nat) :
    ∀ l : List Nat, l.Pairwise (· < ·) → (∀ j ∈ l, g j = j + 1) →
      Nondecr (l.map g) = true := by
  intro l
  induction l with
  | nil => intro _ _; rfl
  | cons a l ih =>
    intro hp hg
    cases l with
    | nil => rfl
    | cons b l' =>
      rcases List.pairwise_cons.1 hp with ⟨hab, hp'⟩
      have h1 : g a ≤ g b := by
        have := hab b (by simp)
        have := hg a (by simp)
        have := hg b (by simp)
        omega
      have h2 : Nondecr (g b :: l'.map g) = true := by
        simpa using ih hp' (fun j hj => hg j (by simp [hj]))
      simp only [List.map_cons] at h2 ⊢
      simp [Nondecr, h1, h2]

/-- C7 counterexample: on nested spans of different kinds the
retrieval-in-block findings appear per span (spans ordered by start),
so their absolute lines are `[3, 5, 3]` — not source-line order,
falsifying the claim that within each rule the findings appear in
source-line order. -/
theorem C7_counterexample :
    (findingsWithSuggestion (analyze_item overlapExampleItem) SUGGEST_SELECT_IN_LOOP).map
      (·.starting_line) = [3, 5, 3] ∧
    NondecrI ((findingsWithSuggestion (analyze_item overlapExampleItem)
      SUGGEST_SELECT_IN_LOOP).map (·.starting_line)) = false := by
  exact ⟨by decide, by decide⟩

/-- C7 (amended): the findings list is ordered by rule execution order
(nested-blocks, then retrieval-in-block, then bulk-retrieval); within
the nested-block rule and the bulk-retrieval rule the findings appear
in source-line order; within the retrieval-in-block rule the findings
are grouped by resolved span (spans ordered by starting index) in
source-line order within each span, which for nested spans need not
be globally source-line ordered. -/
theorem C7_amended (item : AnalysisItem) :
    (analyze_item item).findings =
      (find_nested_loops (build_lines (item.code.getD []))).map
          (assemble_finding item (base_start_line item)) ++
        (find_select_inside_loops (build_lines (item.code.getD []))
            (collect_loop_blocks (build_lines (item.code.getD [])))).map
          (assemble_finding item (base_start_line item)) ++
        (find_for_all_entries (build_lines (item.code.getD []))).map
          (assemble_finding item (base_start_line item)) ∧
    Nondecr ((find_nested_loops (build_lines (item.code.getD []))).map (·.line)) = true ∧
    Nondecr ((find_for_all_entries (build_lines (item.code.getD []))).map (·.line)) = true ∧
    find_select_inside_loops (build_lines (item.code.getD []))
        (collect_loop_blocks (build_lines (item.code.getD []))) =
      (collect_loop_blocks (build_lines (item.code.getD []))).flatMap
        (selectSpanFindingsSpec (build_lines (item.code.getD []))) ∧
    (collect_loop_blocks (build_lines (item.code.getD []))).all
      (fun b => Nondecr ((selectSpanFindingsSpec (build_lines (item.code.getD [])) b).map
        (·.line))) = true := by
  refine ⟨?_, ?_, ?_, find_select_eq _ (build_lines_no _) _, ?_⟩
  · simp [analyze_item, List.map_append]
  · have hmap : (find_nested_loops (build_lines (item.code.getD []))).map (·.line) =
        (nOpen_go 0 [] (build_lines (item.code.getD []))).map (·.no) := by
      unfold find_nested_loops
      rw [fnl_go_eq]
      simp [List.map_map]
    rw [hmap]
    exact nondecr_map_no _ (nOpen_chain _ 0 [])
      (nOpen_no (build_lines (item.code.getD []))
        (build_lines_no (item.code.getD [])) _ 0 [] (by simp))
  · have hfae : find_for_all_entries (build_lines (item.code.getD [])) =
        ((List.range' 0 (build_lines (item.code.getD [])).length).filter
            (fun j => containsFAE ((build_lines (item.code.getD [])).getD j dLine).clean)).map
          (fun j =>
            { suggestion := SUGGEST_FOR_ALL_ENTRIES
              snippet := pyStrip (joinNl ((((build_lines (item.code.getD [])).drop (j - 1)).take
                (min ((build_lines (item.code.getD [])).length - 1) (j + 1) + 1 - (j - 1))).map
                  (·.raw)))
              line := ((build_lines (item.code.getD [])).getD j dLine).no }) := by
      unfold find_for_all_entries
      rw [fae_go_eq _ _ 0 (by simp)]
    rw [hfae, List.map_map]
    apply nondecr_map_filtered
    · exact (List.pairwise_lt_range' 0 _).filter _
    · intro j hj
      have hj' := (List.mem_filter.1 hj).1
      have hlt : j < (build_lines (item.code.getD [])).length := by
        have := List.mem_range'_1.1 hj'
        omega
      show ((build_lines (item.code.getD [])).getD j dLine).no = j + 1
      exact build_lines_no _ j hlt
  · rw [List.all_eq_true]
    intro b hb
    show Nondecr ((selectSpanFindingsSpec (build_lines (item.code.getD [])) b).map
      (·.line)) = true
    unfold selectSpanFindingsSpec
    rw [List.map_map]
    apply nondecr_map_filtered
    · exact (List.pairwise_lt_range' _ _).filter _
    · intro j hj
      have hsel := (List.mem_filter.1 hj).2
      have hlt : j < (build_lines (item.code.getD [])).length :=
        select_lt_length _ j (by simpa using hsel)
      show ((build_lines (item.code.getD [])).getD j dLine).no = j + 1
      exact build_lines_no _ j hlt
